import Mathlib

/-!
# Verification of the exam-taking core

Shallow embedding of the attempt lifecycle, answer ledger, scoring policy
and access-code generator of the assessment application, together with
theorems settling the specification's claims about them.

The embedding follows the source:
* `startOrResumeAttempt` models the attempt bootstrap of `loadExam`
  (src/src/pages/TakeExam.tsx, lines 88-199): the attempts query ordered
  by attempt_number descending, the active-status filter of the exam
  query, the max_attempts check with the 999 "unlimited" sentinel, the
  resume of an incomplete attempt and the creation of a new attempt.
* `upsertAnswer` models `saveAnswer` (TakeExam.tsx, lines 201-217)
  together with the column defaults of the `answers` table in the
  migration (`points_earned DECIMAL(5,2) DEFAULT 0`, `is_correct` with
  no default).
* `handleSubmitExam` models the grading loop and attempt finalization of
  `handleSubmitExam` (TakeExam.tsx, lines 224-344): a single pass over
  the exam's questions accumulating `totalScore` and `totalPoints` and
  issuing row updates keyed on (attempt_id, question_id), then the
  update of the attempt row.
* `generate_access_code_aux` models the SQL function
  `generate_access_code` of the migration, with explicit fuel in place
  of the unbounded LOOP and the successive `md5(random()::text)` draws
  passed in as a stream of hex-digit oracles.

Identifiers (UUIDs in the store) are modelled as naturals; `DECIMAL`
columns as rationals; `JSONB` payloads as the `Value` type actually
exchanged by the client (option indices, booleans, free text);
timestamps as naturals (only presence/absence of `completed_at` and the
value of `started_at` matter to the claims).
-/

namespace Assessment

/-- JSON values as exchanged with the store: the client submits option
indices (numbers), booleans and free text. -/
inductive Value where
  | num (n : Int)
  | bool (b : Bool)
  | str (s : String)
deriving DecidableEq, Repr

/-- The `question_type` enum of the schema. -/
inductive QuestionType where
  | multiple_choice
  | true_false
  | open_answer
  | matching
deriving DecidableEq, Repr

/-- The `exam_status` enum of the schema. -/
inductive ExamStatus where
  | draft
  | active
  | inactive
  | completed
deriving DecidableEq, Repr

/-- A row of the `questions` table, restricted to the fields the claims
are about. -/
structure Question where
  id : Nat
  question_type : QuestionType
  points : ℚ
  correct_answer : Value
deriving DecidableEq, Repr

/-- A row of the `exams` table (with its questions joined in, as the
client loads them), restricted to the fields the claims are about. -/
structure Exam where
  id : Nat
  status : ExamStatus
  max_attempts : Int
  questions : List Question
deriving DecidableEq, Repr

/-- A row of the `exam_attempts` table. -/
structure Attempt where
  id : Nat
  exam_id : Nat
  student_id : Nat
  attempt_number : Nat
  started_at : Nat
  completed_at : Option Nat
  score : Option ℚ
  total_points : Option ℚ
deriving DecidableEq, Repr

/-- A row of the `answers` table. -/
structure AnswerRow where
  attempt_id : Nat
  question_id : Nat
  answer_value : Value
  is_correct : Option Bool
  points_earned : Option ℚ
deriving DecidableEq, Repr

/-- The store state the client operates against. `nextId` stands in for
the id generator (`gen_random_uuid`). -/
structure DB where
  attempts : List Attempt
  answers : List AnswerRow
  nextId : Nat
deriving DecidableEq, Repr

def DB.empty : DB := ⟨[], [], 0⟩

/-- The attempts query of `loadExam`: all attempts of this student for
this exam. -/
def attemptsFor (db : DB) (examId studentId : Nat) : List Attempt :=
  db.attempts.filter (fun a => a.exam_id == examId && a.student_id == studentId)

/-- Insertion step for ordering attempts by `attempt_number` descending,
as the query's `order('attempt_number', ascending: false)` does. -/
def insertByNumberDesc (a : Attempt) : List Attempt → List Attempt
  | [] => [a]
  | b :: l =>
    if b.attempt_number ≤ a.attempt_number then a :: b :: l
    else b :: insertByNumberDesc a l

/-- Attempts ordered by `attempt_number` descending. -/
def sortByNumberDesc (l : List Attempt) : List Attempt :=
  l.foldr insertByNumberDesc []

/-- The error outcomes of the attempt bootstrap: exam missing or not
active, and the attempt-count limit. -/
inductive StartError where
  | NotAvailable
  | LimitReached
deriving DecidableEq, Repr

/-- The attempt bootstrap of `loadExam` (TakeExam.tsx, lines 88-199):
query this student's attempts; fetch the exam filtered on
`status = 'active'` (failure surfaces as `NotAvailable`); reject with
`LimitReached` when `attempts.length >= max_attempts` unless
`max_attempts === 999`; resume the first incomplete attempt in
descending order; otherwise insert a new attempt with
`attempt_number = attempts.length + 1`. -/
def startOrResumeAttempt (db : DB) (exam : Exam) (studentId now : Nat) :
    Except StartError (DB × Attempt) :=
  let attempts := sortByNumberDesc (attemptsFor db exam.id studentId)
  if exam.status ≠ ExamStatus.active then
    .error .NotAvailable
  else if (attempts.length : Int) ≥ exam.max_attempts ∧ exam.max_attempts ≠ 999 then
    .error .LimitReached
  else
    match attempts.find? (fun a => a.completed_at == none) with
    | some a => .ok (db, a)
    | none =>
      let na : Attempt :=
        { id := db.nextId
          exam_id := exam.id
          student_id := studentId
          attempt_number := attempts.length + 1
          started_at := now
          completed_at := none
          score := none
          total_points := none }
      .ok ({ db with attempts := db.attempts ++ [na], nextId := db.nextId + 1 }, na)

/-- The row predicate of the `answers` table's unique key
(attempt_id, question_id). -/
def answerKey (attemptId questionId : Nat) (r : AnswerRow) : Bool :=
  r.attempt_id == attemptId && r.question_id == questionId

/-- `saveAnswer` (TakeExam.tsx, lines 201-217): upsert on the
(attempt_id, question_id) unique key, sending only those two keys and
`answer_value`; on insert the remaining columns take the schema
defaults, `is_correct` null and `points_earned` 0. -/
def upsertAnswer (db : DB) (attemptId questionId : Nat) (v : Value) : DB :=
  if db.answers.any (answerKey attemptId questionId) then
    { db with
      answers := db.answers.map (fun r =>
        if answerKey attemptId questionId r then { r with answer_value := v } else r) }
  else
    { db with
      answers := db.answers ++
        [{ attempt_id := attemptId
           question_id := questionId
           answer_value := v
           is_correct := none
           points_earned := some 0 }] }

/-- Write the grading columns of an answer row. -/
def setGrade (c : Option Bool) (p : Option ℚ) (r : AnswerRow) : AnswerRow :=
  { r with is_correct := c, points_earned := p }

/-- The `update ... eq('attempt_id', ...).eq('question_id', ...)` calls
of the grading loop: every row matching the key gets its grading columns
written; with no matching row this is a no-op. -/
def updateAnswerGrade (rows : List AnswerRow) (attemptId questionId : Nat)
    (c : Option Bool) (p : Option ℚ) : List AnswerRow :=
  rows.map (fun r => if answerKey attemptId questionId r then setGrade c p r else r)

/-- One iteration of the grading loop of `handleSubmitExam`
(TakeExam.tsx, lines 234-307), over the accumulator
(totalScore, totalPoints, answer rows): add the question's points to
`totalPoints`; for multiple_choice and true_false compare the client's
answer for this question with `correct_answer` by strict equality,
adding the points to `totalScore` and updating the row on a match, else
updating the row to incorrect with zero points; for the other types
update the row to null grading columns. -/
def gradeStep (attemptId : Nat) (m : List (Nat × Value))
    (acc : ℚ × ℚ × List AnswerRow) (q : Question) : ℚ × ℚ × List AnswerRow :=
  let totalScore := acc.1
  let totalPoints := acc.2.1 + q.points
  let rows := acc.2.2
  let userAnswer := m.lookup q.id
  match q.question_type with
  | .multiple_choice =>
    if userAnswer = some q.correct_answer then
      (totalScore + q.points, totalPoints,
        updateAnswerGrade rows attemptId q.id (some true) (some q.points))
    else
      (totalScore, totalPoints,
        updateAnswerGrade rows attemptId q.id (some false) (some 0))
  | .true_false =>
    if userAnswer = some q.correct_answer then
      (totalScore + q.points, totalPoints,
        updateAnswerGrade rows attemptId q.id (some true) (some q.points))
    else
      (totalScore, totalPoints,
        updateAnswerGrade rows attemptId q.id (some false) (some 0))
  | _ =>
    (totalScore, totalPoints, updateAnswerGrade rows attemptId q.id none none)

/-- `handleSubmitExam` (TakeExam.tsx, lines 224-344): run the grading
loop over the exam's questions starting from zero accumulators, then
update the attempt row with `completed_at`, `score` and `total_points`.
`m` is the client's in-memory answers record keyed by question id. -/
def handleSubmitExam (db : DB) (exam : Exam) (attemptId : Nat)
    (m : List (Nat × Value)) (now : Nat) : DB :=
  let acc := exam.questions.foldl (gradeStep attemptId m) (0, 0, db.answers)
  { db with
    answers := acc.2.2
    attempts := db.attempts.map (fun a =>
      if a.id == attemptId then
        { a with completed_at := some now, score := some acc.1, total_points := some acc.2.1 }
      else a) }

/-- Lookup of an attempt row by id. -/
def findAttempt (l : List Attempt) (attemptId : Nat) : Option Attempt :=
  l.find? (fun a => a.id == attemptId)

/-- Lookup of an answer row by its (attempt_id, question_id) key. -/
def findAnswer (rows : List AnswerRow) (attemptId questionId : Nat) : Option AnswerRow :=
  rows.find? (answerKey attemptId questionId)

/-- The hexadecimal digits `md5`'s text representation is made of. -/
def lowerHexChars : List Char :=
  "0123456789abcdef".toList

def hexChar (i : Fin 16) : Char :=
  lowerHexChars.getD i.val '0'

/-- The text of one `md5(random()::text)` draw: 32 lowercase hex
digits, the digit values given by the oracle `d`. -/
def md5hexString (d : Fin 32 → Fin 16) : String :=
  String.mk ((List.finRange 32).map (fun j => hexChar (d j)))

/-- `substring(s from 1 for 8)`. -/
def substringFrom1For8 (s : String) : String :=
  String.mk (s.data.take 8)

/-- `upper(s)`. -/
def upperString (s : String) : String :=
  String.mk (s.data.map Char.toUpper)

/-- One candidate code: `upper(substring(md5(random()::text) from 1 for 8))`. -/
def codeOf (d : Fin 32 → Fin 16) : String :=
  upperString (substringFrom1For8 (md5hexString d))

/-- The LOOP body of the SQL function `generate_access_code`: draw the
`i`-th candidate; if it equals the `access_code` of an existing exam,
loop again on the next draw; otherwise return it. `fuel` bounds the
number of iterations modelled (the SQL loop is unbounded). -/
def generate_access_code_aux (existing : List String) (stream : Nat → Fin 32 → Fin 16) :
    Nat → Nat → Option String
  | _, 0 => none
  | i, fuel + 1 =>
    let code := codeOf (stream i)
    if code ∈ existing then generate_access_code_aux existing stream (i + 1) fuel
    else some code

/-- The SQL function `generate_access_code`, starting from the first draw. -/
def generate_access_code (existing : List String) (stream : Nat → Fin 32 → Fin 16)
    (fuel : Nat) : Option String :=
  generate_access_code_aux existing stream 0 fuel

/-- The auto-gradable question types: those the grading loop scores. -/
def isAutoGradable (q : Question) : Bool :=
  q.question_type == QuestionType.multiple_choice ||
    q.question_type == QuestionType.true_false

/-- The condition under which the grading loop awards the question's
points: auto-gradable and the client's answer strictly equals the
stored correct answer. -/
def autoCorrect (m : List (Nat × Value)) (q : Question) : Bool :=
  isAutoGradable q && (m.lookup q.id == some q.correct_answer)

/-- The score the grading loop accumulates over a question list. -/
def scoreOf (m : List (Nat × Value)) (qs : List Question) : ℚ :=
  (qs.map (fun q => if autoCorrect m q then q.points else 0)).sum

/-- The grading-column update the loop applies to question `q`'s answer
row, as a function of the question type and the client's answer. -/
def gradeUpd (m : List (Nat × Value)) (q : Question) : AnswerRow → AnswerRow :=
  match q.question_type with
  | .multiple_choice =>
    if m.lookup q.id = some q.correct_answer then setGrade (some true) (some q.points)
    else setGrade (some false) (some 0)
  | .true_false =>
    if m.lookup q.id = some q.correct_answer then setGrade (some true) (some q.points)
    else setGrade (some false) (some 0)
  | _ => setGrade none none

/-- The answer-rows effect of one grading-loop iteration, in isolation. -/
def gradeRowsStep (attemptId : Nat) (m : List (Nat × Value))
    (rows : List AnswerRow) (q : Question) : List AnswerRow :=
  rows.map (fun r => if answerKey attemptId q.id r then gradeUpd m q r else r)

/-- The answer-rows effect of the whole grading loop, in isolation. -/
def gradeRows (attemptId : Nat) (m : List (Nat × Value)) (qs : List Question)
    (rows : List AnswerRow) : List AnswerRow :=
  qs.foldl (gradeRowsStep attemptId m) rows

/-- All client operations are reachable-state steps: attempt bootstrap,
answer save, submission. -/
inductive Reach : DB → Prop where
  | empty : Reach DB.empty
  | start (db : DB) (exam : Exam) (studentId now : Nat) (db' : DB) (a : Attempt) :
      Reach db → startOrResumeAttempt db exam studentId now = .ok (db', a) → Reach db'
  | save (db : DB) (attemptId questionId : Nat) (v : Value) :
      Reach db → Reach (upsertAnswer db attemptId questionId v)
  | submit (db : DB) (exam : Exam) (attemptId : Nat) (m : List (Nat × Value)) (now : Nat) :
      Reach db → Reach (handleSubmitExam db exam attemptId m now)

/-- Per (exam, student) pair, the recorded attempt numbers are exactly
1, 2, ..., count, in creation order. -/
def attemptNumbersOk (db : DB) : Prop :=
  ∀ examId studentId : Nat,
    (attemptsFor db examId studentId).map Attempt.attempt_number =
      List.range' 1 (attemptsFor db examId studentId).length

/-- States reachable before any submission: attempt bootstraps and
answer saves only. -/
inductive PreSubmitReach : DB → Prop where
  | empty : PreSubmitReach DB.empty
  | start (db : DB) (exam : Exam) (studentId now : Nat) (db' : DB) (a : Attempt) :
      PreSubmitReach db → startOrResumeAttempt db exam studentId now = .ok (db', a) →
      PreSubmitReach db'
  | save (db : DB) (attemptId questionId : Nat) (v : Value) :
      PreSubmitReach db → PreSubmitReach (upsertAnswer db attemptId questionId v)

/-- Every saved answer row still carries the schema defaults of the
grading columns: `is_correct` null and `points_earned` 0. -/
def answersUngraded (db : DB) : Prop :=
  ∀ r ∈ db.answers, r.is_correct = none ∧ r.points_earned = some 0

/-! ## Concrete fixtures used by witnesses and counterexamples -/

/-- A two-point multiple-choice question whose correct option index is 1. -/
def qW1 : Question :=
  { id := 10, question_type := .multiple_choice, points := 2, correct_answer := .num 1 }

/-- An active single-attempt exam holding `qW1`. -/
def examW1 : Exam := { id := 1, status := .active, max_attempts := 1, questions := [qW1] }

/-- The same exam with three allowed attempts. -/
def examW2 : Exam := { id := 1, status := .active, max_attempts := 3, questions := [qW1] }

/-- An active single-attempt exam with no questions. -/
def examW6 : Exam := { id := 1, status := .active, max_attempts := 1, questions := [] }

/-- A store holding one incomplete attempt of student 2 on exam 1, with
one saved (ungraded) answer for `qW1`. -/
def dbW1 : DB :=
  { attempts := [⟨1, 1, 2, 1, 0, none, none, none⟩]
    answers := [⟨1, 10, Value.num 1, none, some 0⟩]
    nextId := 2 }

/-- A store holding one already-completed attempt (score 0 of 2) whose
saved answer for `qW1` was graded incorrect. -/
def dbW3 : DB :=
  { attempts := [⟨1, 1, 2, 1, 0, some 3, some 0, some 2⟩]
    answers := [⟨1, 10, Value.num 0, some false, some 0⟩]
    nextId := 2 }

/-- A store holding one incomplete attempt and no saved answers. -/
def dbW7 : DB :=
  { attempts := [⟨1, 1, 2, 1, 0, none, none, none⟩]
    answers := []
    nextId := 2 }

/-- Hex digits of an md5 draw whose first eight characters read
`abcd1234`. -/
def digitsW0 (j : Fin 32) : Fin 16 :=
  if j.val = 0 then 10
  else if j.val = 1 then 11
  else if j.val = 2 then 12
  else if j.val = 3 then 13
  else if j.val = 4 then 1
  else if j.val = 5 then 2
  else if j.val = 6 then 3
  else if j.val = 7 then 4
  else 0

/-- A draw stream whose first candidate code is `ABCD1234` and whose
later candidates are `00000000`. -/
def streamW : Nat → Fin 32 → Fin 16
  | 0 => digitsW0
  | _ + 1 => fun _ => 0

/-! ## Decomposition of the grading fold -/

theorem gradeStep_rows (attemptId : Nat) (m : List (Nat × Value))
    (acc : ℚ × ℚ × List AnswerRow) (q : Question) :
    (gradeStep attemptId m acc q).2.2 = gradeRowsStep attemptId m acc.2.2 q := by
  obtain ⟨qid, qt, pts, ca⟩ := q
  cases qt <;>
    simp only [gradeStep, gradeRowsStep, gradeUpd, updateAnswerGrade] <;>
    split <;> rfl

theorem gradeStep_fst (attemptId : Nat) (m : List (Nat × Value))
    (acc : ℚ × ℚ × List AnswerRow) (q : Question) :
    (gradeStep attemptId m acc q).1 =
      acc.1 + (if autoCorrect m q then q.points else 0) := by
  obtain ⟨qid, qt, pts, ca⟩ := q
  cases qt <;>
    simp [gradeStep, autoCorrect, isAutoGradable] <;>
    split <;> simp_all

theorem gradeStep_snd (attemptId : Nat) (m : List (Nat × Value))
    (acc : ℚ × ℚ × List AnswerRow) (q : Question) :
    (gradeStep attemptId m acc q).2.1 = acc.2.1 + q.points := by
  obtain ⟨qid, qt, pts, ca⟩ := q
  cases qt <;> simp only [gradeStep] <;> split <;> rfl

theorem gradeFold_rows (attemptId : Nat) (m : List (Nat × Value)) :
    ∀ (qs : List Question) (s p : ℚ) (rows : List AnswerRow),
      (qs.foldl (gradeStep attemptId m) (s, p, rows)).2.2 = gradeRows attemptId m qs rows := by
  intro qs
  induction qs with
  | nil => intro s p rows; rfl
  | cons q qs ih =>
    intro s p rows
    rcases hstep : gradeStep attemptId m (s, p, rows) q with ⟨s', p', rows'⟩
    have hrows : rows' = gradeRowsStep attemptId m rows q := by
      have := gradeStep_rows attemptId m (s, p, rows) q
      rw [hstep] at this
      simpa using this
    rw [List.foldl_cons, hstep, ih s' p' rows', hrows]
    simp only [gradeRows, List.foldl_cons]

theorem gradeFold_score (attemptId : Nat) (m : List (Nat × Value)) :
    ∀ (qs : List Question) (s p : ℚ) (rows : List AnswerRow),
      (qs.foldl (gradeStep attemptId m) (s, p, rows)).1 = s + scoreOf m qs := by
  intro qs
  induction qs with
  | nil => intro s p rows; simp [scoreOf]
  | cons q qs ih =>
    intro s p rows
    rcases hstep : gradeStep attemptId m (s, p, rows) q with ⟨s', p', rows'⟩
    have hs : s' = s + (if autoCorrect m q then q.points else 0) := by
      have := gradeStep_fst attemptId m (s, p, rows) q
      rw [hstep] at this
      simpa using this
    rw [List.foldl_cons, hstep, ih s' p' rows', hs]
    simp [scoreOf, add_assoc]

theorem gradeFold_points (attemptId : Nat) (m : List (Nat × Value)) :
    ∀ (qs : List Question) (s p : ℚ) (rows : List AnswerRow),
      (qs.foldl (gradeStep attemptId m) (s, p, rows)).2.1 =
        p + (qs.map Question.points).sum := by
  intro qs
  induction qs with
  | nil => intro s p rows; simp
  | cons q qs ih =>
    intro s p rows
    rcases hstep : gradeStep attemptId m (s, p, rows) q with ⟨s', p', rows'⟩
    have hp : p' = p + q.points := by
      have := gradeStep_snd attemptId m (s, p, rows) q
      rw [hstep] at this
      simpa using this
    rw [List.foldl_cons, hstep, ih s' p' rows', hp]
    simp [add_assoc]

theorem handleSubmit_answers (db : DB) (exam : Exam) (attemptId : Nat)
    (m : List (Nat × Value)) (now : Nat) :
    (handleSubmitExam db exam attemptId m now).answers =
      gradeRows attemptId m exam.questions db.answers := by
  simp only [handleSubmitExam]
  exact gradeFold_rows attemptId m exam.questions 0 0 db.answers

/-! ## Lookup lemmas for the answer ledger -/

theorem gradeUpd_attempt_id (m : List (Nat × Value)) (q : Question) (r : AnswerRow) :
    (gradeUpd m q r).attempt_id = r.attempt_id := by
  obtain ⟨qid, qt, pts, ca⟩ := q
  cases qt <;> simp only [gradeUpd] <;> first | rfl | (split <;> rfl)

theorem gradeUpd_question_id (m : List (Nat × Value)) (q : Question) (r : AnswerRow) :
    (gradeUpd m q r).question_id = r.question_id := by
  obtain ⟨qid, qt, pts, ca⟩ := q
  cases qt <;> simp only [gradeUpd] <;> first | rfl | (split <;> rfl)

theorem answerKey_gradeRowsStep_fun (attemptId : Nat) (m : List (Nat × Value))
    (q : Question) (a b : Nat) (r : AnswerRow) :
    answerKey a b (if answerKey attemptId q.id r then gradeUpd m q r else r) =
      answerKey a b r := by
  split
  · simp [answerKey, gradeUpd_attempt_id, gradeUpd_question_id]
  · rfl

theorem findAnswer_gradeRowsStep_self (attemptId : Nat) (m : List (Nat × Value))
    (rows : List AnswerRow) (q : Question) :
    findAnswer (gradeRowsStep attemptId m rows q) attemptId q.id =
      (findAnswer rows attemptId q.id).map (gradeUpd m q) := by
  unfold findAnswer gradeRowsStep
  rw [List.find?_map]
  have hpred : (answerKey attemptId q.id ∘ fun r =>
      if answerKey attemptId q.id r then gradeUpd m q r else r) = answerKey attemptId q.id := by
    funext r
    exact answerKey_gradeRowsStep_fun attemptId m q attemptId q.id r
  rw [hpred]
  cases hf : rows.find? (answerKey attemptId q.id) with
  | none => rfl
  | some r0 =>
    have hkey := List.find?_some hf
    simp [hkey]

theorem findAnswer_gradeRowsStep_ne (attemptId : Nat) (m : List (Nat × Value))
    (rows : List AnswerRow) (q : Question) (qid : Nat) (h : q.id ≠ qid) :
    findAnswer (gradeRowsStep attemptId m rows q) attemptId qid =
      findAnswer rows attemptId qid := by
  unfold findAnswer gradeRowsStep
  rw [List.find?_map]
  have hpred : (answerKey attemptId qid ∘ fun r =>
      if answerKey attemptId q.id r then gradeUpd m q r else r) = answerKey attemptId qid := by
    funext r
    exact answerKey_gradeRowsStep_fun attemptId m q attemptId qid r
  rw [hpred]
  cases hf : rows.find? (answerKey attemptId qid) with
  | none => rfl
  | some r0 =>
    have hkey := List.find?_some hf
    have hq : r0.question_id = qid := by
      simp [answerKey] at hkey
      exact hkey.2
    have : answerKey attemptId q.id r0 = false := by
      simp [answerKey, hq]
      intro _
      exact fun hc => h hc.symm
    simp [this]

theorem findAnswer_gradeRows_not_mem (attemptId : Nat) (m : List (Nat × Value)) :
    ∀ (qs : List Question) (rows : List AnswerRow) (qid : Nat),
      (∀ q' ∈ qs, q'.id ≠ qid) →
      findAnswer (gradeRows attemptId m qs rows) attemptId qid =
        findAnswer rows attemptId qid := by
  intro qs
  induction qs with
  | nil => intro rows qid _; rfl
  | cons q qs ih =>
    intro rows qid h
    rw [gradeRows, List.foldl_cons]
    have h1 := ih (gradeRowsStep attemptId m rows q) qid (fun q' hq' => h q' (List.mem_cons_of_mem _ hq'))
    rw [gradeRows] at h1
    rw [h1, findAnswer_gradeRowsStep_ne attemptId m rows q qid (h q (List.mem_cons_self _ _))]

theorem findAnswer_gradeRows_mem (attemptId : Nat) (m : List (Nat × Value)) :
    ∀ (qs : List Question) (rows : List AnswerRow) (q : Question),
      (qs.map Question.id).Nodup → q ∈ qs →
      findAnswer (gradeRows attemptId m qs rows) attemptId q.id =
        (findAnswer rows attemptId q.id).map (gradeUpd m q) := by
  intro qs
  induction qs with
  | nil => intro rows q _ hq; cases hq
  | cons q' qs ih =>
    intro rows q hnd hq
    have hnd' : (qs.map Question.id).Nodup := (List.nodup_cons.mp hnd).2
    have hhead : q'.id ∉ qs.map Question.id := (List.nodup_cons.mp hnd).1
    rw [gradeRows, List.foldl_cons]
    rcases List.mem_cons.mp hq with rfl | hmem
    · have hrest : ∀ q'' ∈ qs, q''.id ≠ q.id := by
        intro q'' hq'' hc
        exact hhead (hc ▸ List.mem_map_of_mem Question.id hq'')
      have h1 := findAnswer_gradeRows_not_mem attemptId m qs
        (gradeRowsStep attemptId m rows q) q.id hrest
      rw [gradeRows] at h1
      rw [h1, findAnswer_gradeRowsStep_self]
    · have hne : q'.id ≠ q.id := by
        intro hc
        exact hhead (hc ▸ List.mem_map_of_mem Question.id hmem)
      have h1 := ih (gradeRowsStep attemptId m rows q') q hnd' hmem
      rw [gradeRows] at h1
      rw [h1, findAnswer_gradeRowsStep_ne attemptId m rows q' q.id hne]

/-! ## Lookup lemma for the attempt finalization -/

theorem findAttempt_map_completing (l : List Attempt) (attemptId t : Nat) (s tp : ℚ) :
    findAttempt (l.map (fun a =>
        if a.id == attemptId then
          { a with completed_at := some t, score := some s, total_points := some tp }
        else a)) attemptId =
      (findAttempt l attemptId).map (fun a =>
        { a with completed_at := some t, score := some s, total_points := some tp }) := by
  unfold findAttempt
  rw [List.find?_map]
  have hpred : ((fun a : Attempt => a.id == attemptId) ∘ (fun a =>
      if a.id == attemptId then
        { a with completed_at := some t, score := some s, total_points := some tp }
      else a)) = fun a : Attempt => a.id == attemptId := by
    funext a
    by_cases h : a.id = attemptId <;> simp [h]
  rw [hpred]
  cases hf : l.find? (fun a => a.id == attemptId) with
  | none => rfl
  | some a0 =>
    have hkey := List.find?_some hf
    have hid : a0.id = attemptId := by simpa using hkey
    simp [hid]

theorem findAttempt_handleSubmit (db : DB) (exam : Exam) (attemptId : Nat)
    (m : List (Nat × Value)) (now : Nat) :
    findAttempt (handleSubmitExam db exam attemptId m now).attempts attemptId =
      (findAttempt db.attempts attemptId).map (fun a =>
        { a with completed_at := some now,
                 score := some (scoreOf m exam.questions),
                 total_points := some ((exam.questions.map Question.points).sum) }) := by
  have hs := gradeFold_score attemptId m exam.questions 0 0 db.answers
  have hp := gradeFold_points attemptId m exam.questions 0 0 db.answers
  rw [zero_add] at hs hp
  simp only [handleSubmitExam]
  rw [hs, hp]
  exact findAttempt_map_completing db.attempts attemptId now _ _

/-! ## The descending order of the attempts query -/

theorem length_insertByNumberDesc (a : Attempt) :
    ∀ l : List Attempt, (insertByNumberDesc a l).length = l.length + 1
  | [] => rfl
  | b :: l => by
    unfold insertByNumberDesc
    split
    · rfl
    · simp [length_insertByNumberDesc a l]

theorem length_sortByNumberDesc : ∀ l : List Attempt, (sortByNumberDesc l).length = l.length
  | [] => rfl
  | a :: l => by
    show (insertByNumberDesc a (sortByNumberDesc l)).length = l.length + 1
    rw [length_insertByNumberDesc, length_sortByNumberDesc l]

theorem mem_insertByNumberDesc (a x : Attempt) :
    ∀ l : List Attempt, x ∈ insertByNumberDesc a l ↔ x = a ∨ x ∈ l
  | [] => by simp [insertByNumberDesc]
  | b :: l => by
    unfold insertByNumberDesc
    split
    · simp
    · simp [mem_insertByNumberDesc a x l]
      tauto

theorem mem_sortByNumberDesc (x : Attempt) :
    ∀ l : List Attempt, x ∈ sortByNumberDesc l ↔ x ∈ l
  | [] => Iff.rfl
  | a :: l => by
    show x ∈ insertByNumberDesc a (sortByNumberDesc l) ↔ _
    rw [mem_insertByNumberDesc]
    simp [mem_sortByNumberDesc x l]

/-! ## Outcome lemmas for the attempt bootstrap -/

theorem startOrResume_notAvailable (db : DB) (exam : Exam) (studentId now : Nat)
    (h : exam.status ≠ ExamStatus.active) :
    startOrResumeAttempt db exam studentId now = .error .NotAvailable := by
  simp only [startOrResumeAttempt]
  rw [if_pos h]

theorem startOrResume_limitReached (db : DB) (exam : Exam) (studentId now : Nat)
    (hact : exam.status = ExamStatus.active)
    (hlim : ((sortByNumberDesc (attemptsFor db exam.id studentId)).length : Int) ≥
      exam.max_attempts)
    (hne : exam.max_attempts ≠ 999) :
    startOrResumeAttempt db exam studentId now = .error .LimitReached := by
  simp only [startOrResumeAttempt]
  rw [if_neg (show ¬exam.status ≠ ExamStatus.active from fun h => h hact),
    if_pos ⟨hlim, hne⟩]

theorem startOrResume_resume (db : DB) (exam : Exam) (studentId now : Nat) (a : Attempt)
    (hact : exam.status = ExamStatus.active)
    (hok : ¬(((sortByNumberDesc (attemptsFor db exam.id studentId)).length : Int) ≥
      exam.max_attempts ∧ exam.max_attempts ≠ 999))
    (hfind : (sortByNumberDesc (attemptsFor db exam.id studentId)).find?
      (fun a => a.completed_at == none) = some a) :
    startOrResumeAttempt db exam studentId now = .ok (db, a) := by
  simp only [startOrResumeAttempt]
  rw [if_neg (show ¬exam.status ≠ ExamStatus.active from fun h => h hact), if_neg hok,
    hfind]

theorem startOrResume_create (db : DB) (exam : Exam) (studentId now : Nat)
    (hact : exam.status = ExamStatus.active)
    (hok : ¬(((sortByNumberDesc (attemptsFor db exam.id studentId)).length : Int) ≥
      exam.max_attempts ∧ exam.max_attempts ≠ 999))
    (hfind : (sortByNumberDesc (attemptsFor db exam.id studentId)).find?
      (fun a => a.completed_at == none) = none) :
    startOrResumeAttempt db exam studentId now =
      .ok ({ db with
              attempts := db.attempts ++
                [⟨db.nextId, exam.id, studentId,
                  (sortByNumberDesc (attemptsFor db exam.id studentId)).length + 1,
                  now, none, none, none⟩]
              nextId := db.nextId + 1 },
            ⟨db.nextId, exam.id, studentId,
              (sortByNumberDesc (attemptsFor db exam.id studentId)).length + 1,
              now, none, none, none⟩) := by
  simp only [startOrResumeAttempt]
  rw [if_neg (show ¬exam.status ≠ ExamStatus.active from fun h => h hact), if_neg hok,
    hfind]

theorem startOrResume_ok_cases (db : DB) (exam : Exam) (studentId now : Nat)
    (db' : DB) (a : Attempt)
    (h : startOrResumeAttempt db exam studentId now = .ok (db', a)) :
    (db' = db ∧ a ∈ db.attempts ∧ a.exam_id = exam.id ∧ a.student_id = studentId ∧
      a.completed_at = none) ∨
    (a = ⟨db.nextId, exam.id, studentId, (attemptsFor db exam.id studentId).length + 1,
        now, none, none, none⟩ ∧
      db' = { db with attempts := db.attempts ++ [a], nextId := db.nextId + 1 }) := by
  simp only [startOrResumeAttempt] at h
  split at h
  · exact absurd h (by simp)
  · split at h
    · exact absurd h (by simp)
    · split at h
      next a0 hfind =>
        left
        have hmem0 := List.mem_of_find?_eq_some hfind
        have hcomp := List.find?_some hfind
        rw [mem_sortByNumberDesc] at hmem0
        have hmem1 := List.mem_filter.mp hmem0
        simp only [Except.ok.injEq, Prod.mk.injEq] at h
        obtain ⟨hdb, ha⟩ := h
        subst hdb; subst ha
        refine ⟨rfl, hmem1.1, ?_, ?_, ?_⟩
        · have := hmem1.2
          simp at this
          exact this.1
        · have := hmem1.2
          simp at this
          exact this.2
        · simpa using hcomp
      next hfind =>
        right
        simp only [Except.ok.injEq, Prod.mk.injEq] at h
        obtain ⟨hdb, ha⟩ := h
        subst hdb; subst ha
        constructor
        · rw [length_sortByNumberDesc]
        · rw [length_sortByNumberDesc]

/-! ## Reachable store states and their invariants -/

theorem upsertAnswer_attempts (db : DB) (attemptId questionId : Nat) (v : Value) :
    (upsertAnswer db attemptId questionId v).attempts = db.attempts := by
  unfold upsertAnswer
  split <;> rfl

theorem startOrResume_answers (db : DB) (exam : Exam) (studentId now : Nat)
    (db' : DB) (a : Attempt)
    (h : startOrResumeAttempt db exam studentId now = .ok (db', a)) :
    db'.answers = db.answers := by
  rcases startOrResume_ok_cases db exam studentId now db' a h with ⟨rfl, _⟩ | ⟨_, rfl⟩ <;> rfl

theorem range'_one_concat (n : Nat) :
    List.range' 1 (n + 1) = List.range' 1 n ++ [n + 1] := by
  have h : List.range' 1 (n + 1) 1 = List.range' 1 n 1 ++ [1 + 1 * n] :=
    List.range'_concat 1 n
  simpa [Nat.add_comm] using h

theorem filter_pair_map (l : List Attempt) (f : Attempt → Attempt) (eid sid : Nat)
    (h1 : ∀ a, (f a).exam_id = a.exam_id) (h2 : ∀ a, (f a).student_id = a.student_id) :
    (l.map f).filter (fun a => a.exam_id == eid && a.student_id == sid) =
      (l.filter (fun a => a.exam_id == eid && a.student_id == sid)).map f := by
  rw [List.filter_map]
  have hpred : ((fun a : Attempt => a.exam_id == eid && a.student_id == sid) ∘ f) =
      (fun a : Attempt => a.exam_id == eid && a.student_id == sid) := by
    funext a
    simp [Function.comp, h1, h2]
  rw [hpred]

theorem attemptNumbersOk_empty : attemptNumbersOk DB.empty := by
  intro eid sid
  rfl

theorem attemptNumbersOk_start (db : DB) (exam : Exam) (studentId now : Nat)
    (db' : DB) (a : Attempt)
    (h : startOrResumeAttempt db exam studentId now = .ok (db', a))
    (hok : attemptNumbersOk db) : attemptNumbersOk db' := by
  rcases startOrResume_ok_cases db exam studentId now db' a h with ⟨rfl, _⟩ | ⟨ha, rfl⟩
  · exact hok
  · intro eid sid
    by_cases he : exam.id = eid
    · by_cases hs : studentId = sid
      · subst he
        subst hs
        have happ : attemptsFor
            { db with attempts := db.attempts ++ [a], nextId := db.nextId + 1 }
            exam.id studentId = attemptsFor db exam.id studentId ++ [a] := by
          subst ha
          simp [attemptsFor, List.filter_append, List.filter_singleton]
        rw [happ, List.map_append, List.length_append, hok exam.id studentId]
        subst ha
        simp [range'_one_concat]
      · have happ : attemptsFor
            { db with attempts := db.attempts ++ [a], nextId := db.nextId + 1 }
            eid sid = attemptsFor db eid sid := by
          subst ha
          simp [attemptsFor, List.filter_append, List.filter_singleton, hs]
        rw [happ]
        exact hok eid sid
    · have happ : attemptsFor
          { db with attempts := db.attempts ++ [a], nextId := db.nextId + 1 }
          eid sid = attemptsFor db eid sid := by
        subst ha
        simp [attemptsFor, List.filter_append, List.filter_singleton, he]
      rw [happ]
      exact hok eid sid

theorem attemptNumbersOk_save (db : DB) (attemptId questionId : Nat) (v : Value)
    (hok : attemptNumbersOk db) :
    attemptNumbersOk (upsertAnswer db attemptId questionId v) := by
  intro eid sid
  have hatt : attemptsFor (upsertAnswer db attemptId questionId v) eid sid =
      attemptsFor db eid sid := by
    simp [attemptsFor, upsertAnswer_attempts]
  rw [hatt]
  exact hok eid sid

theorem completing_exam_id (attemptId t : Nat) (s tp : ℚ) (a : Attempt) :
    ((if a.id == attemptId then
      { a with completed_at := some t, score := some s, total_points := some tp }
    else a) : Attempt).exam_id = a.exam_id := by
  by_cases h : a.id = attemptId <;> simp [h]

theorem completing_student_id (attemptId t : Nat) (s tp : ℚ) (a : Attempt) :
    ((if a.id == attemptId then
      { a with completed_at := some t, score := some s, total_points := some tp }
    else a) : Attempt).student_id = a.student_id := by
  by_cases h : a.id = attemptId <;> simp [h]

theorem completing_attempt_number (attemptId t : Nat) (s tp : ℚ) (a : Attempt) :
    ((if a.id == attemptId then
      { a with completed_at := some t, score := some s, total_points := some tp }
    else a) : Attempt).attempt_number = a.attempt_number := by
  by_cases h : a.id = attemptId <;> simp [h]

theorem attemptNumbersOk_submit (db : DB) (exam : Exam) (attemptId : Nat)
    (m : List (Nat × Value)) (now : Nat) (hok : attemptNumbersOk db) :
    attemptNumbersOk (handleSubmitExam db exam attemptId m now) := by
  intro eid sid
  simp only [attemptsFor, handleSubmitExam]
  rw [filter_pair_map db.attempts _ eid sid
      (fun a => completing_exam_id attemptId now _ _ a)
      (fun a => completing_student_id attemptId now _ _ a),
    List.map_map, List.length_map]
  have hnum : (Attempt.attempt_number ∘ (fun a : Attempt =>
      if a.id == attemptId then
        { a with completed_at := some now,
                 score := some ((exam.questions.foldl (gradeStep attemptId m)
                   (0, 0, db.answers)).1),
                 total_points := some ((exam.questions.foldl (gradeStep attemptId m)
                   (0, 0, db.answers)).2.1) }
      else a)) = Attempt.attempt_number := by
    funext a
    exact completing_attempt_number attemptId now _ _ a
  rw [hnum]
  exact hok eid sid

theorem reach_attemptNumbersOk (db : DB) (h : Reach db) : attemptNumbersOk db := by
  induction h with
  | empty => exact attemptNumbersOk_empty
  | start db exam studentId now db' a _ hstep ih =>
    exact attemptNumbersOk_start db exam studentId now db' a hstep ih
  | save db attemptId questionId v _ ih =>
    exact attemptNumbersOk_save db attemptId questionId v ih
  | submit db exam attemptId m now _ ih =>
    exact attemptNumbersOk_submit db exam attemptId m now ih

theorem answersUngraded_upsert (db : DB) (attemptId questionId : Nat) (v : Value)
    (h : answersUngraded db) : answersUngraded (upsertAnswer db attemptId questionId v) := by
  intro r hr
  unfold upsertAnswer at hr
  split at hr
  · simp only at hr
    rcases List.mem_map.mp hr with ⟨r0, hr0, rfl⟩
    have h0 := h r0 hr0
    split <;> simpa using h0
  · simp only at hr
    rcases List.mem_append.mp hr with hmem | hmem
    · exact h r hmem
    · have : r = { attempt_id := attemptId
                   question_id := questionId
                   answer_value := v
                   is_correct := none
                   points_earned := some 0 } := by simpa using hmem
      subst this
      exact ⟨rfl, rfl⟩

theorem presubmit_answersUngraded (db : DB) (h : PreSubmitReach db) :
    answersUngraded db := by
  induction h with
  | empty => intro r hr; cases hr
  | start db exam studentId now db' a _ hstep ih =>
    intro r hr
    rw [startOrResume_answers db exam studentId now db' a hstep] at hr
    exact ih r hr
  | save db attemptId questionId v _ ih =>
    exact answersUngraded_upsert db attemptId questionId v ih

/-! ## Score characterizations -/

theorem sum_filterMap_getD (F : Question → Option ℚ) :
    ∀ qs : List Question,
      (qs.filterMap F).sum = (qs.map (fun q => (F q).getD 0)).sum
  | [] => rfl
  | q :: qs => by
    cases hF : F q <;>
      simp [List.filterMap_cons, hF, sum_filterMap_getD F qs]

theorem scoreOf_le_total (m : List (Nat × Value)) :
    ∀ qs : List Question, (∀ q ∈ qs, 0 ≤ q.points) →
      scoreOf m qs ≤ (qs.map Question.points).sum
  | [] => by
    intro _
    simp [scoreOf]
  | q :: qs => by
    intro h
    have ih := scoreOf_le_total m qs (fun q' hq' => h q' (List.mem_cons_of_mem _ hq'))
    have hq := h q (List.mem_cons_self _ _)
    have hcons : scoreOf m (q :: qs) =
        (if autoCorrect m q then q.points else 0) + scoreOf m qs := by
      simp [scoreOf]
    rw [hcons, List.map_cons, List.sum_cons]
    have hterm : (if autoCorrect m q then q.points else 0) ≤ q.points := by
      by_cases hc : autoCorrect m q <;> simp [hc, hq]
    exact add_le_add hterm ih

theorem earned_getD (db : DB) (attemptId : Nat) (m : List (Nat × Value)) (q : Question)
    (hrow : autoCorrect m q = true → (findAnswer db.answers attemptId q.id).isSome) :
    (((findAnswer db.answers attemptId q.id).map (gradeUpd m q)).bind
        AnswerRow.points_earned).getD 0 =
      (if autoCorrect m q then q.points else 0) := by
  cases hfa : findAnswer db.answers attemptId q.id with
  | none =>
    have hc : autoCorrect m q = false := by
      by_cases hc : autoCorrect m q = true
      · have hsome := hrow hc
        rw [hfa] at hsome
        simp at hsome
      · simpa using hc
    simp [hc]
  | some r =>
    obtain ⟨qid, qt, pts, ca⟩ := q
    by_cases hl : m.lookup qid = some ca <;>
      cases qt <;>
        simp [gradeUpd, autoCorrect, isAutoGradable, setGrade, hl]

/-! ## The access-code generator -/

theorem codeOf_length (d : Fin 32 → Fin 16) : (codeOf d).length = 8 := by
  simp [codeOf, upperString, substringFrom1For8, md5hexString, String.length]

theorem codeOf_upperAlnum (d : Fin 32 → Fin 16) :
    (codeOf d).data.all (fun c => c.isDigit || c.isUpper) = true := by
  have hhex : ∀ i : Fin 16,
      ((hexChar i).toUpper.isDigit || (hexChar i).toUpper.isUpper) = true := by decide
  rw [List.all_eq_true]
  intro c hc
  simp only [codeOf, upperString, substringFrom1For8, md5hexString] at hc
  rcases List.mem_map.mp hc with ⟨c0, hc0, rfl⟩
  have hc1 : c0 ∈ (List.finRange 32).map (fun j => hexChar (d j)) :=
    List.take_subset 8 _ hc0
  rcases List.mem_map.mp hc1 with ⟨j, _, rfl⟩
  exact hhex (d j)

theorem generate_access_code_aux_sound (existing : List String)
    (stream : Nat → Fin 32 → Fin 16) :
    ∀ (fuel i : Nat) (c : String),
      generate_access_code_aux existing stream i fuel = some c →
      (∃ j, c = codeOf (stream j)) ∧ c ∉ existing
  | 0, i, c => by
    intro h
    simp [generate_access_code_aux] at h
  | fuel + 1, i, c => by
    intro h
    rw [generate_access_code_aux] at h
    split at h
    · exact generate_access_code_aux_sound existing stream fuel (i + 1) c h
    · next hmem =>
      have hc : c = codeOf (stream i) := by
        simpa using h.symm
      exact ⟨⟨i, hc⟩, hc ▸ hmem⟩

/-! ## Claims -/

/-- C1: at submission time every question is graded by the piecewise
policy of the grading loop: a multiple_choice or true_false answer is
marked correct with full points exactly when the submitted value equals
the stored correct answer, and otherwise marked incorrect with zero
points (no partial credit); an open_answer or matching answer always
gets null is_correct and null points_earned and is never auto-scored.
The equation describes the persisted answer row (when one exists) after
`handleSubmitExam`. -/
theorem grading_piecewise (db : DB) (exam : Exam) (attemptId : Nat)
    (m : List (Nat × Value)) (now : Nat) (q : Question)
    (hnodup : (exam.questions.map Question.id).Nodup) (hq : q ∈ exam.questions) :
    findAnswer (handleSubmitExam db exam attemptId m now).answers attemptId q.id =
      (findAnswer db.answers attemptId q.id).map (fun r =>
        match q.question_type with
        | QuestionType.multiple_choice =>
          if m.lookup q.id = some q.correct_answer then
            { r with is_correct := some true, points_earned := some q.points }
          else { r with is_correct := some false, points_earned := some 0 }
        | QuestionType.true_false =>
          if m.lookup q.id = some q.correct_answer then
            { r with is_correct := some true, points_earned := some q.points }
          else { r with is_correct := some false, points_earned := some 0 }
        | _ => { r with is_correct := none, points_earned := none }) := by
  rw [handleSubmit_answers,
    findAnswer_gradeRows_mem attemptId m exam.questions db.answers q hnodup hq]
  congr 1
  funext r
  obtain ⟨qid, qt, pts, ca⟩ := q
  cases qt <;> simp only [gradeUpd, setGrade] <;> first | rfl | (split <;> rfl)

/-- Witness for C1: on a concrete store, the saved multiple-choice
answer matching the correct index is marked correct with its two
points. -/
theorem grading_piecewise_witness :
    findAnswer (handleSubmitExam dbW1 examW1 1 [(10, Value.num 1)] 5).answers 1 qW1.id =
      some ⟨1, 10, Value.num 1, some true, some 2⟩ := by
  have h := grading_piecewise dbW1 examW1 1 [(10, Value.num 1)] 5 qW1 (by decide) (by decide)
  rw [h]
  decide

/-- C2: on submission the persisted total_points is the sum of every
question's points regardless of grading status, and the persisted score
is the sum of the non-null points_earned values over the exam's
questions (each question has at most one answer row by the unique key),
provided every auto-correct answered question has a saved row. -/
theorem submit_persists_score_and_totals (db : DB) (exam : Exam) (attemptId : Nat)
    (m : List (Nat × Value)) (now : Nat) (a : Attempt)
    (hnodup : (exam.questions.map Question.id).Nodup)
    (ha : findAttempt db.attempts attemptId = some a)
    (hrow : ∀ q ∈ exam.questions, autoCorrect m q = true →
      (findAnswer db.answers attemptId q.id).isSome) :
    findAttempt (handleSubmitExam db exam attemptId m now).attempts attemptId =
      some { a with
              completed_at := some now
              score := some ((exam.questions.filterMap (fun q =>
                (findAnswer (handleSubmitExam db exam attemptId m now).answers
                  attemptId q.id).bind AnswerRow.points_earned)).sum)
              total_points := some ((exam.questions.map Question.points).sum) } := by
  have hcongr : exam.questions.filterMap (fun q =>
      (findAnswer (handleSubmitExam db exam attemptId m now).answers attemptId q.id).bind
        AnswerRow.points_earned) =
    exam.questions.filterMap (fun q =>
      ((findAnswer db.answers attemptId q.id).map (gradeUpd m q)).bind
        AnswerRow.points_earned) :=
    List.filterMap_congr (fun q hq => by
      rw [handleSubmit_answers,
        findAnswer_gradeRows_mem attemptId m exam.questions db.answers q hnodup hq])
  have hscore : (exam.questions.filterMap (fun q =>
      (findAnswer (handleSubmitExam db exam attemptId m now).answers attemptId q.id).bind
        AnswerRow.points_earned)).sum = scoreOf m exam.questions := by
    rw [hcongr, sum_filterMap_getD]
    unfold scoreOf
    congr 1
    exact List.map_congr_left (fun q hq => earned_getD db attemptId m q (hrow q hq))
  rw [hscore, findAttempt_handleSubmit, ha]
  rfl

/-- Witness for C2: the concrete submission persists score 2 and
total_points 2. -/
theorem submit_persists_score_and_totals_witness :
    findAttempt (handleSubmitExam dbW1 examW1 1 [(10, Value.num 1)] 5).attempts 1 =
      some ⟨1, 1, 2, 1, 0, some 5,
        some ((examW1.questions.filterMap (fun q =>
          (findAnswer (handleSubmitExam dbW1 examW1 1 [(10, Value.num 1)] 5).answers
            1 q.id).bind AnswerRow.points_earned)).sum),
        some ((examW1.questions.map Question.points).sum)⟩ :=
  submit_persists_score_and_totals dbW1 examW1 1 [(10, Value.num 1)] 5
    ⟨1, 1, 2, 1, 0, none, none, none⟩ (by decide) (by decide) (by decide)

/-- C3 counterexample: a second submission of an already-completed
attempt is not rejected: on a store whose attempt 1 is completed (at 3,
score 0 of 2), running the submission handler again succeeds and
overwrites score (0 becomes 2) and completed_at (3 becomes 7). -/
theorem resubmit_not_rejected_counterexample :
    (findAttempt dbW3.attempts 1).map Attempt.completed_at = some (some 3) ∧
    (findAttempt dbW3.attempts 1).map Attempt.score = some (some 0) ∧
    (findAttempt (handleSubmitExam dbW3 examW1 1 [(10, Value.num 1)] 7).attempts 1).map
      Attempt.score = some (some 2) ∧
    (findAttempt (handleSubmitExam dbW3 examW1 1 [(10, Value.num 1)] 7).attempts 1).map
      Attempt.completed_at = some (some 7) := by
  refine ⟨rfl, rfl, ?_, ?_⟩ <;>
    · rw [findAttempt_handleSubmit]
      simp [dbW3, examW1, qW1, findAttempt, scoreOf, autoCorrect, isAutoGradable]

/-- C3 (amended): the submission handler performs no completed-attempt
check: applied to an attempt that is already completed, it re-runs
grading and overwrites completed_at, score and total_points with
freshly computed values instead of failing. -/
theorem submit_regrades_completed (db : DB) (exam : Exam) (attemptId : Nat)
    (m : List (Nat × Value)) (now t : Nat) (a : Attempt)
    (ha : findAttempt db.attempts attemptId = some a)
    (hc : a.completed_at = some t) :
    findAttempt (handleSubmitExam db exam attemptId m now).attempts attemptId =
      some { a with
              completed_at := some now
              score := some (scoreOf m exam.questions)
              total_points := some ((exam.questions.map Question.points).sum) } := by
  rw [findAttempt_handleSubmit, ha]
  rfl

/-- Witness for the amended C3 on the concrete completed attempt. -/
theorem submit_regrades_completed_witness :
    findAttempt (handleSubmitExam dbW3 examW1 1 [(10, Value.num 1)] 7).attempts 1 =
      some ⟨1, 1, 2, 1, 0, some 7, some (scoreOf [(10, Value.num 1)] examW1.questions),
        some ((examW1.questions.map Question.points).sum)⟩ :=
  submit_regrades_completed dbW3 examW1 1 [(10, Value.num 1)] 7 3
    ⟨1, 1, 2, 1, 0, some 3, some 0, some 2⟩ (by decide) rfl

/-- C4 counterexample: with max_attempts 1 and one existing incomplete
attempt, the bootstrap does not return that attempt: the limit check
runs first and rejects with LimitReached. -/
theorem resume_blocked_by_limit_counterexample :
    dbW1.attempts = [⟨1, 1, 2, 1, 0, none, none, none⟩] ∧
    (⟨1, 1, 2, 1, 0, none, none, none⟩ : Attempt).completed_at = none ∧
    startOrResumeAttempt dbW1 examW1 2 9 = .error .LimitReached := by
  refine ⟨rfl, rfl, ?_⟩
  rfl

/-- C4 (amended): when the attempt count is still below max_attempts
(or max_attempts is the 999 sentinel) and an incomplete attempt exists,
the bootstrap returns that attempt with the store unchanged — same
attempt id, saved answers and started_at untouched, no new attempt —
so a repeated call returns the same attempt again. -/
theorem resume_idempotent_below_limit (db : DB) (exam : Exam) (studentId now : Nat)
    (a : Attempt)
    (hact : exam.status = ExamStatus.active)
    (hlim : ((attemptsFor db exam.id studentId).length : Int) < exam.max_attempts ∨
      exam.max_attempts = 999)
    (hfind : (sortByNumberDesc (attemptsFor db exam.id studentId)).find?
      (fun x => x.completed_at == none) = some a) :
    startOrResumeAttempt db exam studentId now = .ok (db, a) := by
  refine startOrResume_resume db exam studentId now a hact ?_ hfind
  rw [length_sortByNumberDesc]
  rcases hlim with h | h
  · exact fun hc => absurd hc.1 (not_le.mpr h)
  · exact fun hc => hc.2 h

/-- Witness for the amended C4: with max_attempts 3, the incomplete
attempt is resumed unchanged. -/
theorem resume_idempotent_below_limit_witness :
    startOrResumeAttempt dbW1 examW2 2 9 = .ok (dbW1, ⟨1, 1, 2, 1, 0, none, none, none⟩) :=
  resume_idempotent_below_limit dbW1 examW2 2 9 ⟨1, 1, 2, 1, 0, none, none, none⟩
    (by decide) (Or.inl (by decide)) (by decide)

/-- C5: for an active exam, whenever the student's recorded attempt
count has reached max_attempts and max_attempts is not the 999
sentinel, the bootstrap rejects with LimitReached; with the 999
sentinel the attempt-count check never rejects. -/
theorem attempt_limit_check (db : DB) (exam : Exam) (studentId now : Nat)
    (hact : exam.status = ExamStatus.active) :
    ((((attemptsFor db exam.id studentId).length : Int) ≥ exam.max_attempts ∧
        exam.max_attempts ≠ 999) →
      startOrResumeAttempt db exam studentId now = .error .LimitReached) ∧
    (exam.max_attempts = 999 →
      startOrResumeAttempt db exam studentId now ≠ .error .LimitReached) := by
  constructor
  · rintro ⟨hlim, hne⟩
    refine startOrResume_limitReached db exam studentId now hact ?_ hne
    rw [length_sortByNumberDesc]
    exact hlim
  · intro h999 hcontra
    simp only [startOrResumeAttempt] at hcontra
    rw [if_neg (show ¬exam.status ≠ ExamStatus.active from fun h => h hact)] at hcontra
    rw [if_neg (show ¬(((sortByNumberDesc (attemptsFor db exam.id studentId)).length : Int) ≥
        exam.max_attempts ∧ exam.max_attempts ≠ 999) from fun hc => hc.2 h999)] at hcontra
    split at hcontra
    · exact absurd hcontra (by simp)
    · exact absurd hcontra (by simp)

/-- Witness for C5: the student with one recorded attempt on a
max_attempts-1 exam is rejected with LimitReached. -/
theorem attempt_limit_check_witness :
    startOrResumeAttempt dbW1 examW1 2 9 = .error .LimitReached :=
  (attempt_limit_check dbW1 examW1 2 9 (by decide)).1 (by decide)

/-- C6: whenever the bootstrap creates a new attempt (one not already
in the store), its attempt_number is the count of the pair's prior
attempts plus one; in the resulting store every (exam, student) pair's
attempt numbers are exactly 1..count — sequential with no gaps — and
hence pairwise distinct, so (exam, student, attempt_number) is unique. -/
theorem new_attempt_number_sequential (db : DB) (exam : Exam) (studentId now : Nat)
    (db' : DB) (a : Attempt) (hreach : Reach db)
    (h : startOrResumeAttempt db exam studentId now = .ok (db', a))
    (hnew : a ∉ db.attempts) :
    a.attempt_number = (attemptsFor db exam.id studentId).length + 1 ∧
    attemptNumbersOk db' ∧
    ∀ examId sid : Nat,
      ((attemptsFor db' examId sid).map Attempt.attempt_number).Nodup := by
  have hok' : attemptNumbersOk db' :=
    attemptNumbersOk_start db exam studentId now db' a h (reach_attemptNumbersOk db hreach)
  rcases startOrResume_ok_cases db exam studentId now db' a h with ⟨_, hmem, _⟩ | ⟨ha, _⟩
  · exact absurd hmem hnew
  · refine ⟨?_, hok', ?_⟩
    · rw [ha]
    · intro eid sid
      rw [hok' eid sid]
      exact List.nodup_range' 1 _

/-- Witness for C6: the first attempt created on an empty store gets
attempt_number 1. -/
theorem new_attempt_number_sequential_witness :
    (⟨0, 1, 2, 1, 9, none, none, none⟩ : Attempt).attempt_number =
      (attemptsFor DB.empty 1 2).length + 1 :=
  (new_attempt_number_sequential DB.empty examW6 2 9
    ⟨[⟨0, 1, 2, 1, 9, none, none, none⟩], [], 1⟩ ⟨0, 1, 2, 1, 9, none, none, none⟩
    Reach.empty rfl (by simp [DB.empty])).1

/-- C7 counterexample: an unanswered auto-gradable question has no
Answer row, so the grading update is a no-op: after submission there is
still no row for it — nothing records is_correct false or points_earned
0 — although it does contribute zero to the persisted score. -/
theorem unanswered_not_recorded_counterexample :
    findAnswer (handleSubmitExam dbW7 examW1 1 [] 7).answers 1 10 = none ∧
    (handleSubmitExam dbW7 examW1 1 [] 7).answers = [] ∧
    (findAttempt (handleSubmitExam dbW7 examW1 1 [] 7).attempts 1).map Attempt.score =
      some (some 0) := by
  refine ⟨?_, ?_, ?_⟩ <;> decide

/-- C7 (amended): an unanswered question with no saved Answer row
contributes zero points to the score, and the grading pass records
nothing for it: with no row before submission there is no row after it
either, for auto-gradable and manual types alike. -/
theorem unanswered_no_row_zero_score (db : DB) (exam : Exam) (attemptId : Nat)
    (m : List (Nat × Value)) (now : Nat) (q : Question)
    (hnodup : (exam.questions.map Question.id).Nodup) (hq : q ∈ exam.questions)
    (hm : m.lookup q.id = none)
    (hrow : findAnswer db.answers attemptId q.id = none) :
    findAnswer (handleSubmitExam db exam attemptId m now).answers attemptId q.id = none ∧
    scoreOf m exam.questions = scoreOf m (exam.questions.erase q) := by
  constructor
  · rw [handleSubmit_answers,
      findAnswer_gradeRows_mem attemptId m exam.questions db.answers q hnodup hq, hrow]
    rfl
  · have hterm : autoCorrect m q = false := by
      simp [autoCorrect, hm]
    have hperm := (List.perm_cons_erase hq).map
      (fun q' : Question => if autoCorrect m q' then q'.points else 0)
    have hsum := hperm.sum_eq
    unfold scoreOf
    rw [hsum]
    simp [hterm]

/-- Witness for the amended C7 on the concrete store without a saved
answer. -/
theorem unanswered_no_row_zero_score_witness :
    findAnswer (handleSubmitExam dbW7 examW1 1 [] 7).answers 1 10 = none ∧
    scoreOf [] examW1.questions = scoreOf [] (examW1.questions.erase qW1) :=
  unanswered_no_row_zero_score dbW7 examW1 1 [] 7 qW1 (by decide) (by decide)
    (by decide) (by decide)

/-- C8: every code the generator returns has exactly 8 characters, all
uppercase alphanumeric, and differs from every existing exam's
access_code at the moment it is returned; and on a collision the
generator retries with the next draw. -/
theorem access_code_valid_and_fresh (existing : List String)
    (stream : Nat → Fin 32 → Fin 16) (i fuel : Nat) (c : String)
    (h : generate_access_code_aux existing stream i (fuel + 1) = some c) :
    (c.length = 8 ∧ c.data.all (fun ch => ch.isDigit || ch.isUpper) = true ∧
      c ∉ existing) ∧
    (codeOf (stream i) ∈ existing →
      generate_access_code_aux existing stream i (fuel + 1) =
        generate_access_code_aux existing stream (i + 1) fuel) := by
  obtain ⟨⟨j, hj⟩, hnot⟩ :=
    generate_access_code_aux_sound existing stream (fuel + 1) i c h
  refine ⟨⟨?_, ?_, hnot⟩, ?_⟩
  · rw [hj]
    exact codeOf_length (stream j)
  · rw [hj]
    exact codeOf_upperAlnum (stream j)
  · intro hmem
    simp only [generate_access_code_aux]
    rw [if_pos hmem]

/-- Witness for C8: with "ABCD1234" taken and a stream drawing
"ABCD1234" then "00000000", the generator retries past the collision
and returns the fresh, well-formed code. -/
theorem access_code_valid_and_fresh_witness :
    ((("00000000" : String).length = 8 ∧
      ("00000000" : String).data.all (fun ch => ch.isDigit || ch.isUpper) = true ∧
      ("00000000" : String) ∉ ["ABCD1234"]) ∧
     (codeOf (streamW 0) ∈ ["ABCD1234"] →
       generate_access_code_aux ["ABCD1234"] streamW 0 (1 + 1) =
         generate_access_code_aux ["ABCD1234"] streamW (0 + 1) 1)) :=
  access_code_valid_and_fresh ["ABCD1234"] streamW 0 1 "00000000" (by decide)

/-- C9 counterexample: a freshly saved (upserted) answer does not have
null points_earned: the insert carries the schema default 0, so the
saved row is (is_correct null, points_earned 0). -/
theorem saved_answer_points_default_counterexample :
    (upsertAnswer DB.empty 1 10 (Value.str "hola")).answers =
      [⟨1, 10, Value.str "hola", none, some 0⟩] ∧
    (some (0 : ℚ) ≠ (none : Option ℚ)) := by
  refine ⟨rfl, ?_⟩
  simp

/-- C9 (amended): over every state reachable by attempt bootstraps and
answer saves before any submission, every saved answer row has
is_correct null and points_earned equal to the column default 0 (not
null); points_earned only changes once grading runs at submission. -/
theorem saved_answers_ungraded_default (db : DB) (h : PreSubmitReach db) :
    ∀ r ∈ db.answers, r.is_correct = none ∧ r.points_earned = some 0 :=
  presubmit_answersUngraded db h

/-- Witness for the amended C9: the row saved into the empty store. -/
theorem saved_answers_ungraded_default_witness :
    (⟨1, 10, Value.str "hola", none, some 0⟩ : AnswerRow).is_correct = none ∧
    (⟨1, 10, Value.str "hola", none, some 0⟩ : AnswerRow).points_earned = some 0 :=
  saved_answers_ungraded_default (upsertAnswer DB.empty 1 10 (Value.str "hola"))
    (PreSubmitReach.save DB.empty 1 10 (Value.str "hola") PreSubmitReach.empty)
    ⟨1, 10, Value.str "hola", none, some 0⟩ (by decide)

/-- C10: when every question's points are nonnegative, the persisted
score is at most the persisted total_points: each question contributes
at most its own points to the score and exactly its points to
total_points. -/
theorem submit_score_le_total (db : DB) (exam : Exam) (attemptId : Nat)
    (m : List (Nat × Value)) (now : Nat) (a : Attempt)
    (ha : findAttempt db.attempts attemptId = some a)
    (hpts : ∀ q ∈ exam.questions, 0 ≤ q.points) :
    findAttempt (handleSubmitExam db exam attemptId m now).attempts attemptId =
      some { a with
              completed_at := some now
              score := some (scoreOf m exam.questions)
              total_points := some ((exam.questions.map Question.points).sum) } ∧
    scoreOf m exam.questions ≤ (exam.questions.map Question.points).sum := by
  constructor
  · rw [findAttempt_handleSubmit, ha]
    rfl
  · exact scoreOf_le_total m exam.questions hpts

/-- Witness for C10 on the concrete submission. -/
theorem submit_score_le_total_witness :
    (findAttempt (handleSubmitExam dbW1 examW1 1 [(10, Value.num 1)] 5).attempts 1 =
      some ⟨1, 1, 2, 1, 0, some 5, some (scoreOf [(10, Value.num 1)] examW1.questions),
        some ((examW1.questions.map Question.points).sum)⟩) ∧
    scoreOf [(10, Value.num 1)] examW1.questions ≤
      (examW1.questions.map Question.points).sum :=
  submit_score_le_total dbW1 examW1 1 [(10, Value.num 1)] 5
    ⟨1, 1, 2, 1, 0, none, none, none⟩ (by decide) (by decide)

end Assessment
